import Mathlib

/-!
# Verification of the streaming merge-join core and auxiliary components

This development embeds, in Lean, the parts of the repository that the
spec's claims are about:

* the columnar data model (typed values with nulls, tables with group keys)
  as exercised by `stdlib/universe/join_test.go` (`executetest.Table`:
  `ColMeta`, `KeyCols`, `Data`);
* the inner merge-join semantics.  The join executor itself
  (`universe.MergeJoinCache` / `NewMergeJoinTransformation`) is not among the
  provided sources — only its test file is — so the join is modelled from the
  spec (output-key planner of spec section 4.3, executor of section 4.4) with
  the expected outputs of `TestMergeJoin_Process` as the authority where the
  two disagree: the expected outputs show rows of one output bucket emitted
  sorted by the tuple of `on`-column values (it is a merge join), with ties
  broken by arrival order, and output columns sorted by label;
* `createJoinTransformation` of `stdlib/join/join.go` (present in full);
* `PrivateIPValidator.ValidateIP` / `isPrivateIP` of the `url` package
  (present in full).

Floats: the scenarios never do float arithmetic — float cells are opaque
payloads that are only carried through and compared for equality.  Every
float literal in the modelled scenarios has a single decimal digit, so a
float value is embedded as its decimal literal scaled by ten (an `Int`):
`1.0` becomes `vfloat 10`, `10.1` becomes `vfloat 101`.
-/

/-- Column types of the columnar runtime (`flux.TTime`, `flux.TInt`, …). -/
inductive CType
  | time | tint | tuint | tfloat | tbool | tstr
deriving DecidableEq, Repr

/-- A non-null cell value.  `vfloat` carries the decimal literal scaled by
ten, see the header comment. -/
inductive Value
  | vtime (t : Int)
  | vint (i : Int)
  | vuint (u : Nat)
  | vfloat (tenths : Int)
  | vbool (b : Bool)
  | vstr (s : String)
deriving DecidableEq, Repr

/-- A row is one cell per column; `none` is a null cell. -/
abbrev Row := List (Option Value)

/-- Column metadata: a label and a type (`flux.ColMeta`). -/
structure Col where
  label : String
  typ : CType
deriving DecidableEq, Repr

/-- A columnar table in the shape of `executetest.Table`: column metadata,
the labels of the group-key columns, and the rows.  The group-key values are
those of the first row (as in `executetest.Table.Normalize`). -/
structure Table where
  cols : List Col
  keyCols : List String
  rows : List Row
deriving DecidableEq, Repr

/-- Index of the first column with the given label, if any. -/
def colIdx (l : String) : List Col → Option Nat
  | [] => none
  | c :: cs => if c.label = l then some 0 else (colIdx l cs).map (· + 1)

/-- The cell of a row in the column labelled `l`; `none` when the column is
absent or the cell is null. -/
def cell (cols : List Col) (r : Row) (l : String) : Option Value :=
  match colIdx l cols with
  | none => none
  | some i => r.getD i none

/-- The group-key value of a table for label `l`: the corresponding cell of
the first row (`executetest.Table` takes `KeyValues` from `Data[0]`). -/
def keyValue (T : Table) (l : String) : Option Value :=
  match T.rows with
  | [] => none
  | r :: _ => cell T.cols r l

/-- Evaluate `f` on every element, succeeding only if every application
succeeds (the all-or-nothing extraction of a row's `on`-tuple). -/
def optMapList (f : α → Option β) : List α → Option (List β)
  | [] => some []
  | a :: l =>
    match f a, optMapList f l with
    | some b, some bs => some (b :: bs)
    | _, _ => none

/-- The tuple of a row's `on`-column values; `none` if any `on` column is
missing or null (null-rejecting equality: such rows never match). -/
def onTuple (onCols : List String) (cols : List Col) (r : Row) : Option (List Value) :=
  optMapList (cell cols r) onCols

/-- Constructor tag, only to make `valueLe` total across types. -/
def Value.tag : Value → Nat
  | .vtime _ => 0
  | .vint _ => 1
  | .vuint _ => 2
  | .vfloat _ => 3
  | .vbool _ => 4
  | .vstr _ => 5

/-- Total comparison used only to order rows of one bucket for emission. -/
def valueLe (u v : Value) : Bool :=
  match u, v with
  | .vtime a, .vtime b => decide (a ≤ b)
  | .vint a, .vint b => decide (a ≤ b)
  | .vuint a, .vuint b => decide (a ≤ b)
  | .vfloat a, .vfloat b => decide (a ≤ b)
  | .vbool a, .vbool b => !a || b
  | .vstr a, .vstr b => strLe a b
  | u, v => decide (u.tag ≤ v.tag)
where
  strLe (a b : String) : Bool := charsLe a.data b.data
  charsLe : List Char → List Char → Bool
    | [], _ => true
    | _ :: _, [] => false
    | a :: as', b :: bs' => if a = b then charsLe as' bs' else decide (a.toNat ≤ b.toNat)

/-- Lexicographic comparison of `on`-tuples. -/
def tupleLe : List Value → List Value → Bool
  | [], _ => true
  | _ :: _, [] => false
  | a :: as', b :: bs' => if a = b then tupleLe as' bs' else valueLe a b

/-- Order on labels (byte order of the character codes). -/
def strLe (s t : String) : Bool := valueLe (.vstr s) (.vstr t)

/-- Insert into a sorted list, before the first element that is not
strictly smaller (so insertion sort is stable). -/
def ordInsert (le : α → α → Bool) (a : α) : List α → List α
  | [] => [a]
  | b :: l => if le a b then a :: b :: l else b :: ordInsert le a l

/-- Stable insertion sort. -/
def insSort (le : α → α → Bool) : List α → List α
  | [] => []
  | a :: l => ordInsert le a (insSort le l)

/-- Which input a value comes from. -/
inductive Side
  | a | b
deriving DecidableEq, Repr

/-- The collision-renaming suffix of a side. -/
def sideSfx : Side → String
  | .a => "_a"
  | .b => "_b"

/-- Labels occurring in the column metadata of both inputs. -/
def sharedCols (A B : Table) : List String :=
  (A.cols.map Col.label).filter (fun l => decide (l ∈ B.cols.map Col.label))

/-- Modelled from the spec (section 3, non-key column collision rule): a
label listed in `on` is kept; a label present on both sides is renamed with
the side suffix; any other label is kept. -/
def renameLabel (onCols shared : List String) (sd : Side) (l : String) : String :=
  if l ∈ onCols then l else if l ∈ shared then l ++ sideSfx sd else l

/-- An output column: its label and type together with the side and source
label it is materialized from (the column-source map of spec section 4.3). -/
structure OutCol where
  label : String
  typ : CType
  side : Side
  src : String
deriving DecidableEq, Repr

/-- Output columns contributed by the A side: every A column, renamed. -/
def outColsA (onCols : List String) (A B : Table) : List OutCol :=
  A.cols.map (fun c => ⟨renameLabel onCols (sharedCols A B) .a c.label, c.typ, .a, c.label⟩)

/-- Output columns contributed by the B side: every B column that is not an
`on` column (the `on` columns are emitted once, from A), renamed. -/
def outColsB (onCols : List String) (A B : Table) : List OutCol :=
  (B.cols.filter (fun c => decide (c.label ∉ onCols))).map
    (fun c => ⟨renameLabel onCols (sharedCols A B) .b c.label, c.typ, .b, c.label⟩)

/-- Modelled from the spec (section 4.3) and the expected outputs of
`TestMergeJoin_Process`: the output schema of a bucket pair, sorted by label. -/
def joinOutCols (onCols : List String) (A B : Table) : List OutCol :=
  insSort (fun x y => strLe x.label y.label) (outColsA onCols A B ++ outColsB onCols A B)

/-- The A-side contribution to the output group key: every A group-key
label, renamed, with A's key value. -/
def joinOGKA (onCols : List String) (A B : Table) : List (String × Option Value) :=
  A.keyCols.map (fun l => (renameLabel onCols (sharedCols A B) .a l, keyValue A l))

/-- Modelled from the spec (section 3, output group key): the OGK of a bucket
pair as an association list, A-side entries first; a B-side entry is dropped
when its (renamed) label is already contributed by A. -/
def joinOGK (onCols : List String) (A B : Table) : List (String × Option Value) :=
  joinOGKA onCols A B ++ (B.keyCols.map
      (fun l => (renameLabel onCols (sharedCols A B) .b l, keyValue B l))).filter
    (fun q => decide (q.1 ∉ (joinOGKA onCols A B).map Prod.fst))

/-- The labels of the output group key, sorted. -/
def joinKeyCols (onCols : List String) (A B : Table) : List String :=
  insSort strLe ((joinOGK onCols A B).map Prod.fst)

/-- Look a label up in an output group key. -/
def ogkValue (gk : List (String × Option Value)) (l : String) : Option Value :=
  match gk.find? (fun q => decide (q.1 = l)) with
  | some q => q.2
  | none => none

/-- Key constancy of an input table: every row's group-key cells equal the
table's group-key values (the data-model invariant of spec section 3). -/
def keyConstant (T : Table) : Prop :=
  ∀ r ∈ T.rows, ∀ l ∈ T.keyCols, cell T.cols r l = keyValue T l

/-- Every group-key label names a column of the table. -/
def keyColsExist (T : Table) : Prop :=
  ∀ l ∈ T.keyCols, ∃ c ∈ T.cols, c.label = l

instance (T : Table) : Decidable (keyConstant T) := by
  unfold keyConstant
  infer_instance

instance (T : Table) : Decidable (keyColsExist T) := by
  unfold keyColsExist
  infer_instance

/-- The cell of an output column, materialized from its source row. -/
def outCell (A B : Table) (ra rb : Row) (oc : OutCol) : Option Value :=
  match oc.side with
  | .a => cell A.cols ra oc.src
  | .b => cell B.cols rb oc.src

/-- One output row for a matching pair of input rows. -/
def outRow (A B : Table) (ocols : List OutCol) (ra rb : Row) : Row :=
  ocols.map (outCell A B ra rb)

/-- The rows of one input, without the rows whose `on`-tuple has a null,
tagged by their `on`-tuple, sorted by that tuple (stable, so arrival order
breaks ties). -/
def sortedPairsOf (onCols : List String) (cols : List Col) (rows : List Row) :
    List (List Value × Row) :=
  insSort (fun p q => tupleLe p.1 q.1)
    (rows.filterMap (fun r => (onTuple onCols cols r).map (fun t => (t, r))))

/-- Modelled from the spec (section 4.4, matching): the rows of the output
bucket of a pair — every matching (A-row, B-row) pair, A-major. -/
def joinRows (onCols : List String) (A B : Table) : List Row :=
  (sortedPairsOf onCols A.cols A.rows).flatMap (fun p =>
    ((sortedPairsOf onCols B.cols B.rows).filter (fun q => decide (q.1 = p.1))).map
      (fun q => outRow A B (joinOutCols onCols A B) p.2 q.2))

/-- Modelled from the spec: the output bucket of one bucket pair. -/
def joinPair (onCols : List String) (A B : Table) : Table :=
  ⟨(joinOutCols onCols A B).map (fun oc => ⟨oc.label, oc.typ⟩),
   joinKeyCols onCols A B,
   joinRows onCols A B⟩

/-- The non-null `on`-tuples of a table's rows, in row order. -/
def tuplesOf (onCols : List String) (T : Table) : List (List Value) :=
  T.rows.filterMap (onTuple onCols T.cols)

/-- Modelled from the spec (section 4.4): on finish, every bucket pair is
joined and the non-empty output buckets are emitted.  (Merging of distinct
pairs that share an OGK into one bucket is not modelled; no claim depends
on it.) -/
def joinStreams (onCols : List String) (sA sB : List Table) : List Table :=
  (sA.flatMap (fun A => sB.map (fun B => joinPair onCols A B))).filter
    (fun T => decide (T.rows ≠ []))

/-! ## Error model (`codes` / `internal/errors`) -/

/-- Error codes (`codes.Invalid`, `codes.FailedPrecondition`, …). -/
inductive ErrCode
  | invalid | failedPrecondition | resourceExhausted | internalErr | unimplemented
deriving DecidableEq, Repr

/-- An error as built by `errors.New(code, msg)`. -/
structure FluxError where
  code : ErrCode
  msg : String
deriving DecidableEq, Repr

/-! ## The stdlib `join` package (`stdlib/join/join.go`) -/

/-- The struct `join.JoinProcedureSpec` (stdlib `join` package).  Its `On`/`As` resolved
functions and `Left`/`Right` table objects are never inspected by
`createJoinTransformation`, so they are embedded as opaque identifiers. -/
structure Join2ProcedureSpec where
  onFn : Nat
  asFn : Nat
  leftObj : Nat
  rightObj : Nat
  method : String
deriving DecidableEq, Repr

/-- The function `createJoinTransformation` of `stdlib/join/join.go` lines 132-139: it
ignores every argument and returns nil transformation, nil dataset and an
`Invalid` error. -/
def createJoinTransformation (Transformation Dataset : Type)
    (_id : Nat) (_mode : Nat) (_spec : Join2ProcedureSpec) (_adm : Nat) :
    Option Transformation × Option Dataset × Option FluxError :=
  (none, none, some ⟨.invalid, "the join package is not yet implemented"⟩)

/-! ## The universe `join` operation spec construction -/

/-- The struct `universe.JoinOpSpec` as exercised by `TestJoin_NewQuery`: the `on`
labels, the method, and the table names. -/
structure JoinOpSpec where
  onCols : List String
  method : String
  tableNames : List (String × String)
deriving DecidableEq, Repr

/-- Modelled from the spec: the query-compile-time construction of the
universe `join` operation spec (`universe.createJoinOpSpec` is not under
the provided sources; only `TestJoin_NewQuery` is).  Per spec section 6,
`on` is a non-empty ordered sequence of column labels; an empty or missing
`on` argument is a compile-time error and no operation spec is produced,
and the method defaults to inner. -/
def createJoinOpSpecModel (onArg : Option (List String))
    (tableNames : List (String × String)) : Except FluxError JoinOpSpec :=
  match onArg with
  | none => .error ⟨.invalid, "missing required argument on"⟩
  | some [] => .error ⟨.invalid, "argument on must have at least one element"⟩
  | some ls => .ok ⟨ls, "inner", tableNames⟩

/-! ## The URL validator (`url` package, `src/unnamed/part_000`) -/

/-- The type `net.IPNet` restricted to what `ParseCIDR` produces for the private
blocks: a network address and a mask of the same length (4 or 16 bytes). -/
structure IPNet where
  addr : List Nat
  mask : List Nat
deriving DecidableEq, Repr

/-- The nine parsed CIDR blocks of `privateIPBlocks` (the `init` of the
`url` package), written out byte-wise exactly as `net.ParseCIDR` yields
them. -/
def privateIPBlocks : List IPNet :=
  [⟨[0, 0, 0, 0], [255, 255, 255, 255]⟩,
   ⟨[127, 0, 0, 0], [255, 0, 0, 0]⟩,
   ⟨[10, 0, 0, 0], [255, 0, 0, 0]⟩,
   ⟨[172, 16, 0, 0], [255, 240, 0, 0]⟩,
   ⟨[192, 168, 0, 0], [255, 255, 0, 0]⟩,
   ⟨[169, 254, 0, 0], [255, 255, 0, 0]⟩,
   ⟨[0, 0, 0, 0, 0, 0, 0, 0, 0, 0, 0, 0, 0, 0, 0, 1], [255, 255, 255, 255, 255, 255, 255, 255, 255, 255, 255, 255, 255, 255, 255, 255]⟩,
   ⟨[254, 128, 0, 0, 0, 0, 0, 0, 0, 0, 0, 0, 0, 0, 0, 0], [255, 192, 0, 0, 0, 0, 0, 0, 0, 0, 0, 0, 0, 0, 0, 0]⟩,
   ⟨[252, 0, 0, 0, 0, 0, 0, 0, 0, 0, 0, 0, 0, 0, 0, 0], [254, 0, 0, 0, 0, 0, 0, 0, 0, 0, 0, 0, 0, 0, 0, 0]⟩]

/-- The method `net.IP.To4`: a 4-byte address as is; a 16-byte IPv4-mapped address
(ten zero bytes then two 0xff bytes) collapsed to its last four bytes;
anything else has no IPv4 form. -/
def ipTo4 (ip : List Nat) : Option (List Nat) :=
  if ip.length = 4 then some ip
  else if ip.length = 16 ∧ ip.take 10 = [0, 0, 0, 0, 0, 0, 0, 0, 0, 0] ∧
      ip.getD 10 0 = 255 ∧ ip.getD 11 0 = 255 then some (ip.drop 12)
  else none

/-- The method `net.IPNet.Contains`: convert the probe to its IPv4 form when it has
one, require equal lengths, then compare the masked bytes. -/
def ipnetContains (net : IPNet) (ip : List Nat) : Bool :=
  ipnetContainsAux net (match ipTo4 ip with | some x => x | none => ip)
where
  ipnetContainsAux (net : IPNet) (ip4 : List Nat) : Bool :=
    decide (ip4.length = net.addr.length) &&
    decide (List.zipWith (fun x y => x &&& y) net.addr net.mask =
            List.zipWith (fun x y => x &&& y) ip4 net.mask)

/-- The function `isPrivateIP`: whether any private block contains the address. -/
def isPrivateIP (ip : List Nat) : Bool :=
  privateIPBlocks.any (fun blk => ipnetContains blk ip)

/-- The method `PrivateIPValidator.ValidateIP`: an `Invalid` "no such host" error for a
private address, success otherwise. -/
def validateIP (ip : List Nat) : Option FluxError :=
  if isPrivateIP ip then some ⟨.invalid, "no such host"⟩ else none

/-- A byte sequence is a well-formed address when each byte is below 256
and the length is that of an IPv4 or IPv6 address. -/
def wfIP (ip : List Nat) : Prop :=
  (∀ b ∈ ip, b < 256) ∧ (ip.length = 4 ∨ ip.length = 16)

instance (ip : List Nat) : Decidable (wfIP ip) := by
  unfold wfIP
  infer_instance

/-- The claim's reading of the private ranges, written as arithmetic
conditions on the bytes of the canonical form (IPv4 form when the address
has one): `0.0.0.0/32`, `127.0.0.0/8`, `10.0.0.0/8`, `172.16.0.0/12`,
`192.168.0.0/16`, `169.254.0.0/16` for IPv4, and `::1/128`, `fe80::/10`,
`fc00::/7` for the rest.  This definition follows the claim's words and is
compared against `isPrivateIP`, which follows the code. -/
def privateIPSpec (ip : List Nat) : Bool :=
  match ipTo4 ip with
  | some [b0, b1, b2, b3] =>
    decide ((b0 = 0 ∧ b1 = 0 ∧ b2 = 0 ∧ b3 = 0) ∨
      b0 = 127 ∨ b0 = 10 ∨ (b0 = 172 ∧ 16 ≤ b1 ∧ b1 < 32) ∨
      (b0 = 192 ∧ b1 = 168) ∨ (b0 = 169 ∧ b1 = 254))
  | some _ => false
  | none =>
    decide (ip = [0, 0, 0, 0, 0, 0, 0, 0, 0, 0, 0, 0, 0, 0, 0, 1]) ||
    (decide (ip.length = 16) &&
      decide ((ip.getD 0 0 = 254 ∧ 128 ≤ ip.getD 1 0 ∧ ip.getD 1 0 < 192) ∨
        (252 ≤ ip.getD 0 0 ∧ ip.getD 0 0 < 254)))

/-! ## Concrete tables of `TestMergeJoin_Process` -/

/-- A non-null time cell. -/
def vt (i : Int) : Option Value := some (.vtime i)

/-- A non-null float cell (argument scaled by ten, see the header). -/
def vf (tenths : Int) : Option Value := some (.vfloat tenths)

/-- A non-null string cell. -/
def vs (x : String) : Option Value := some (.vstr x)

/-- The A input of the "simple inner" case (rows (1,1.0),(2,2.0),(3,3.0)). -/
def simpleA : Table :=
  ⟨[⟨"_time", .time⟩, ⟨"_value", .tfloat⟩], [],
   [[vt 1, vf 10], [vt 2, vf 20], [vt 3, vf 30]]⟩

/-- The B input of the "simple inner" case (rows (1,10.0),(2,20.0),(3,30.0)). -/
def simpleB : Table :=
  ⟨[⟨"_time", .time⟩, ⟨"_value", .tfloat⟩], [],
   [[vt 1, vf 100], [vt 2, vf 200], [vt 3, vf 300]]⟩

/-- The expected output of the "simple inner" case. -/
def simpleOut : Table :=
  ⟨[⟨"_time", .time⟩, ⟨"_value_a", .tfloat⟩, ⟨"_value_b", .tfloat⟩], [],
   [[vt 1, vf 10, vf 100], [vt 2, vf 20, vf 200], [vt 3, vf 30, vf 300]]⟩

/-- The A input of the "inner with unsorted tables" case:
rows (2,1.0),(1,2.0),(3,3.0) in arrival order. -/
def unsortedA : Table :=
  ⟨[⟨"_time", .time⟩, ⟨"_value", .tfloat⟩], [],
   [[vt 2, vf 10], [vt 1, vf 20], [vt 3, vf 30]]⟩

/-- The B input of the "inner with unsorted tables" case:
rows (3,10.0),(2,30.0),(1,20.0) in arrival order. -/
def unsortedB : Table :=
  ⟨[⟨"_time", .time⟩, ⟨"_value", .tfloat⟩], [],
   [[vt 3, vf 100], [vt 2, vf 300], [vt 1, vf 200]]⟩

/-- The first A input of "inner with different (but intersecting) group
keys": grouped by t1,t2 with t1="a", t2="x". -/
def interA : Table :=
  ⟨[⟨"_time", .time⟩, ⟨"_value", .tfloat⟩, ⟨"t1", .tstr⟩, ⟨"t2", .tstr⟩],
   ["t1", "t2"],
   [[vt 1, vf 10, vs "a", vs "x"], [vt 2, vf 20, vs "a", vs "x"],
    [vt 3, vf 30, vs "a", vs "x"]]⟩

/-- The B input of the same case: grouped by t1 only, t1="a". -/
def interB : Table :=
  ⟨[⟨"_time", .time⟩, ⟨"_value", .tfloat⟩, ⟨"t1", .tstr⟩, ⟨"t2", .tstr⟩],
   ["t1"],
   [[vt 1, vf 100, vs "a", vs "x"], [vt 1, vf 101, vs "a", vs "y"],
    [vt 2, vf 200, vs "a", vs "x"], [vt 2, vf 201, vs "a", vs "y"],
    [vt 3, vf 300, vs "a", vs "x"], [vt 3, vf 301, vs "a", vs "y"]]⟩

/-- The first A input of "join with mismatched schemas with null in group
key": grouped by key="foo". -/
def mismatchA : Table :=
  ⟨[⟨"_time", .time⟩, ⟨"_value", .tfloat⟩, ⟨"key", .tstr⟩], ["key"],
   [[vt 1, vf 10, vs "foo"], [vt 2, vf 20, vs "foo"]]⟩

/-- The B input of the same case: grouped by key=null. -/
def mismatchB : Table :=
  ⟨[⟨"_time", .time⟩, ⟨"_value", .tfloat⟩, ⟨"key", .tstr⟩], ["key"],
   [[vt 1, vf 100, none], [vt 2, vf 200, none]]⟩

/-! ## General lemmas about the stable sort -/

theorem ordInsert_perm (le : α → α → Bool) (a : α) (l : List α) :
    (ordInsert le a l).Perm (a :: l) := by
  induction l with
  | nil => exact List.Perm.refl _
  | cons b t ih =>
    unfold ordInsert
    split
    · exact List.Perm.refl _
    · exact (ih.cons b).trans (List.Perm.swap a b t)

theorem insSort_perm (le : α → α → Bool) (l : List α) : (insSort le l).Perm l := by
  induction l with
  | nil => exact List.Perm.nil
  | cons a t ih =>
    unfold insSort
    exact (ordInsert_perm le a (insSort le t)).trans (ih.cons a)

theorem mem_insSort (le : α → α → Bool) (l : List α) (x : α) :
    x ∈ insSort le l ↔ x ∈ l :=
  (insSort_perm le l).mem_iff

/-! ## Claim C5: the simple inner join scenario -/

/-- C5: joining A = [(1,1.0),(2,2.0),(3,3.0)] with B = [(1,10.0),(2,20.0),
(3,30.0)] on `_time` produces exactly the rows [(1,1.0,10.0),(2,2.0,20.0),
(3,3.0,30.0)] with the three columns `_time`, `_value_a`, `_value_b`. -/
theorem join_simple_inner :
    joinStreams ["_time"] [simpleA] [simpleB] = [simpleOut] := by decide

/-! ## Claim C2: emission order within a bucket -/

/-- C2 (counterexample): on the unsorted inputs, the output rows are NOT in
A-arrival order [(2,1.0,30.0),(1,2.0,20.0),(3,3.0,10.0)] as the claim
states. -/
theorem join_unsorted_not_arrival_order :
    (joinPair ["_time"] unsortedA unsortedB).rows ≠
      [[vt 2, vf 10, vf 300], [vt 1, vf 20, vf 200], [vt 3, vf 30, vf 100]] := by
  decide

/-- C2 (amended): on the unsorted inputs the output rows are emitted sorted
by the `on`-column tuple — [(1,2.0,20.0),(2,1.0,30.0),(3,3.0,10.0)], the
expected output of the `inner with unsorted tables` case. -/
theorem join_unsorted_sorted_by_on :
    joinPair ["_time"] unsortedA unsortedB =
      ⟨[⟨"_time", .time⟩, ⟨"_value_a", .tfloat⟩, ⟨"_value_b", .tfloat⟩], [],
       [[vt 1, vf 20, vf 200], [vt 2, vf 10, vf 300], [vt 3, vf 30, vf 100]]⟩ := by
  decide

/-! ## Claim C3: shared non-`on` group-key labels with equal values -/

/-- C3 (counterexample): in the `inner with different (but intersecting)
group keys` case, t1 is shared by both input group keys, is not in `on`,
has the same value "a" with the same type on both sides — yet the output
group key does not carry the single label t1: it carries t1_a and t1_b. -/
theorem shared_equal_key_not_single :
    "t1" ∈ interA.keyCols ∧ "t1" ∈ interB.keyCols ∧ "t1" ∉ ["_time", "t2"] ∧
    keyValue interA "t1" = keyValue interB "t1" ∧
    "t1" ∉ joinKeyCols ["_time", "t2"] interA interB ∧
    joinKeyCols ["_time", "t2"] interA interB = ["t1_a", "t1_b", "t2"] := by
  decide

/-- C3 (amended): a group-key label shared by both sides' group keys that is
not in `on` and appears in both column schemas is always renamed: L_a and
L_b both enter the output group key with the respective sides' values,
whether or not those values are equal.  (The side condition `hfree` rules
out another A-side key also renaming to L_b.) -/
theorem shared_key_renamed (onCols : List String) (A B : Table) (L : String)
    (hA : L ∈ A.keyCols) (hB : L ∈ B.keyCols) (hon : L ∉ onCols)
    (hAc : L ∈ A.cols.map Col.label) (hBc : L ∈ B.cols.map Col.label)
    (hfree : (L ++ "_b") ∉ A.keyCols.map (renameLabel onCols (sharedCols A B) .a)) :
    (L ++ "_a", keyValue A L) ∈ joinOGK onCols A B ∧
    (L ++ "_b", keyValue B L) ∈ joinOGK onCols A B ∧
    (L ++ "_a") ∈ joinKeyCols onCols A B ∧
    (L ++ "_b") ∈ joinKeyCols onCols A B := by
  have hsh : L ∈ sharedCols A B := by
    unfold sharedCols
    exact List.mem_filter.mpr ⟨hAc, by simpa using hBc⟩
  have hra : renameLabel onCols (sharedCols A B) .a L = L ++ "_a" := by
    unfold renameLabel
    rw [if_neg hon, if_pos hsh]
    rfl
  have hrb : renameLabel onCols (sharedCols A B) .b L = L ++ "_b" := by
    unfold renameLabel
    rw [if_neg hon, if_pos hsh]
    rfl
  have hmemA : (L ++ "_a", keyValue A L) ∈ joinOGK onCols A B := by
    unfold joinOGK joinOGKA
    refine List.mem_append_left _ ?_
    refine List.mem_map.mpr ⟨L, hA, ?_⟩
    rw [hra]
  have hfst : (joinOGKA onCols A B).map Prod.fst
      = A.keyCols.map (renameLabel onCols (sharedCols A B) .a) := by
    unfold joinOGKA
    rw [List.map_map]
    rfl
  have hmemB : (L ++ "_b", keyValue B L) ∈ joinOGK onCols A B := by
    unfold joinOGK
    refine List.mem_append_right _ ?_
    refine List.mem_filter.mpr ⟨List.mem_map.mpr ⟨L, hB, by rw [hrb]⟩, ?_⟩
    simp only [hfst]
    simpa using hfree
  refine ⟨hmemA, hmemB, ?_, ?_⟩
  · exact (mem_insSort _ _ _).mpr (List.mem_map.mpr ⟨_, hmemA, rfl⟩)
  · exact (mem_insSort _ _ _).mpr (List.mem_map.mpr ⟨_, hmemB, rfl⟩)

/-- Witness for the amended C3 theorem, at the intersecting-group-keys
scenario with label t1 (whose two key values are both "a"). -/
theorem shared_key_renamed_witness :
    ("t1" ∈ interA.keyCols ∧ "t1" ∈ interB.keyCols ∧ "t1" ∉ ["_time", "t2"] ∧
     "t1" ∈ interA.cols.map Col.label ∧ "t1" ∈ interB.cols.map Col.label ∧
     ("t1" ++ "_b") ∉ interA.keyCols.map
       (renameLabel ["_time", "t2"] (sharedCols interA interB) .a)) ∧
    ("t1" ++ "_a", keyValue interA "t1") ∈ joinOGK ["_time", "t2"] interA interB ∧
    ("t1" ++ "_b", keyValue interB "t1") ∈ joinOGK ["_time", "t2"] interA interB ∧
    ("t1" ++ "_a") ∈ joinKeyCols ["_time", "t2"] interA interB ∧
    ("t1" ++ "_b") ∈ joinKeyCols ["_time", "t2"] interA interB := by
  refine ⟨⟨by decide, by decide, by decide, by decide, by decide, by decide⟩, ?_⟩
  exact shared_key_renamed ["_time", "t2"] interA interB "t1" (by decide) (by decide)
    (by decide) (by decide) (by decide) (by decide)

/-! ## Claim C6: mismatched schemas with a null group-key value -/

/-- C6: joining the A bucket with group key key="foo" against the B bucket
with group key key=null (key not in `on`) yields an output bucket whose
output group key is key_a="foo", key_b=null: both renamed columns are kept
because the values differ. -/
theorem join_null_group_key :
    (joinPair ["_time"] mismatchA mismatchB).keyCols = ["key_a", "key_b"] ∧
    joinOGK ["_time"] mismatchA mismatchB =
      [("key_a", some (.vstr "foo")), ("key_b", none)] := by decide

/-! ## Claim C8: a missing or empty `on` list is a compile-time error -/

/-- C8: constructing the universe join operation spec with a missing `on`
argument, or with an empty `on` list, fails with an error and produces no
operation spec. -/
theorem joinOpSpec_requires_on (tns : List (String × String)) :
    createJoinOpSpecModel none tns =
      Except.error ⟨.invalid, "missing required argument on"⟩ ∧
    createJoinOpSpecModel (some []) tns =
      Except.error ⟨.invalid, "argument on must have at least one element"⟩ :=
  ⟨rfl, rfl⟩

/-! ## Claim C9: the stdlib join package is not yet implemented -/

/-- C9: for every dataset id, accumulation mode, procedure spec and
administration argument, `createJoinTransformation` returns a nil
transformation, a nil dataset, and an Invalid error with message
"the join package is not yet implemented". -/
theorem createJoinTransformation_unimplemented (Transformation Dataset : Type)
    (id mode adm : Nat) (spec : Join2ProcedureSpec) :
    createJoinTransformation Transformation Dataset id mode spec adm =
      (none, none, some ⟨.invalid, "the join package is not yet implemented"⟩) :=
  rfl

/-! ## Claim C4: inner-join cardinality -/

theorem map_fst_tag_filterMap (g : α → Option β) (l : List α) :
    (l.filterMap (fun r => (g r).map (fun t => (t, r)))).map Prod.fst = l.filterMap g := by
  induction l with
  | nil => rfl
  | cons a l ih =>
    cases hg : g a with
    | none => simpa [List.filterMap_cons, hg] using ih
    | some t => simpa [List.filterMap_cons, hg] using ih

theorem length_joinRows (onCols : List String) (A B : Table) :
    (joinRows onCols A B).length =
      ((tuplesOf onCols A).map
        (fun t => (tuplesOf onCols B).countP (fun x => decide (x = t)))).sum := by
  unfold joinRows
  rw [List.length_flatMap]
  have hone : ∀ p : List Value × Row,
      (((sortedPairsOf onCols B.cols B.rows).filter (fun q => decide (q.1 = p.1))).map
        (fun q => outRow A B (joinOutCols onCols A B) p.2 q.2)).length =
      (tuplesOf onCols B).countP (fun x => decide (x = p.1)) := by
    intro p
    rw [List.length_map, ← List.countP_eq_length_filter]
    unfold sortedPairsOf
    rw [(insSort_perm _ _).countP_eq]
    unfold tuplesOf
    rw [← map_fst_tag_filterMap (onTuple onCols B.cols) B.rows, List.countP_map]
    rfl
  have hp : ((sortedPairsOf onCols A.cols A.rows).map Prod.fst).Perm
      (tuplesOf onCols A) := by
    unfold sortedPairsOf tuplesOf
    have h := (insSort_perm (fun p q : List Value × Row => tupleLe p.1 q.1)
      (A.rows.filterMap (fun r => (onTuple onCols A.cols r).map (fun t => (t, r))))).map
      Prod.fst
    rwa [map_fst_tag_filterMap] at h
  calc ((sortedPairsOf onCols A.cols A.rows).map _).sum
      = ((sortedPairsOf onCols A.cols A.rows).map
          (fun p => (tuplesOf onCols B).countP (fun x => decide (x = p.1)))).sum :=
        congrArg List.sum (List.map_congr_left (fun p _ => hone p))
    _ = (((sortedPairsOf onCols A.cols A.rows).map Prod.fst).map
          (fun t => (tuplesOf onCols B).countP (fun x => decide (x = t)))).sum := by
        rw [List.map_map]
        rfl
    _ = ((tuplesOf onCols A).map
          (fun t => (tuplesOf onCols B).countP (fun x => decide (x = t)))).sum :=
        (hp.map _).sum_eq

theorem sum_map_eq_toFinset_sum [DecidableEq α] (l : List α) (f : α → Nat) :
    (l.map f).sum = ∑ v ∈ l.toFinset, l.countP (fun x => decide (x = v)) * f v := by
  induction l with
  | nil => simp
  | cons a l ih =>
    rw [List.map_cons, List.sum_cons, List.toFinset_cons, ih]
    have hcnt : ∀ v, (a :: l).countP (fun x => decide (x = v)) =
        l.countP (fun x => decide (x = v)) + if a = v then 1 else 0 := by
      intro v
      rw [List.countP_cons]
      by_cases h : a = v
      · simp [h]
      · simp [h]
    by_cases hmem : a ∈ l.toFinset
    · rw [Finset.insert_eq_self.mpr hmem]
      have hsum : ∀ v ∈ l.toFinset,
          (a :: l).countP (fun x => decide (x = v)) * f v =
          l.countP (fun x => decide (x = v)) * f v + (if a = v then f v else 0) := by
        intro v _
        rw [hcnt v]
        by_cases h : a = v
        · simp [h, Nat.add_mul]
        · simp [h]
      rw [Finset.sum_congr rfl hsum, Finset.sum_add_distrib, Finset.sum_ite_eq, if_pos hmem]
      omega
    · rw [Finset.sum_insert hmem]
      have hz : (a :: l).countP (fun x => decide (x = a)) = 1 := by
        rw [hcnt a, if_pos rfl, List.countP_eq_zero.mpr]
        intro x hx
        simp only [decide_eq_true_eq]
        intro hxa
        exact hmem (List.mem_toFinset.mpr (hxa ▸ hx))
      have hsame : ∀ v ∈ l.toFinset,
          (a :: l).countP (fun x => decide (x = v)) * f v =
          l.countP (fun x => decide (x = v)) * f v := by
        intro v hv
        rw [hcnt v, if_neg, Nat.add_zero]
        intro hav
        exact hmem (hav ▸ hv)
      rw [hz, Finset.sum_congr rfl hsame, Nat.one_mul]

/-- C4: for every bucket pair, the number of output rows is the sum, over
the distinct non-null `on`-tuples v occurring in the inputs, of the number
of A rows with tuple v times the number of B rows with tuple v. -/
theorem join_cardinality (onCols : List String) (A B : Table) :
    (joinPair onCols A B).rows.length =
      ∑ v ∈ (tuplesOf onCols A ++ tuplesOf onCols B).toFinset,
        (tuplesOf onCols A).countP (fun x => decide (x = v)) *
        (tuplesOf onCols B).countP (fun x => decide (x = v)) := by
  have h1 : (joinPair onCols A B).rows.length =
      ∑ v ∈ (tuplesOf onCols A).toFinset,
        (tuplesOf onCols A).countP (fun x => decide (x = v)) *
        (tuplesOf onCols B).countP (fun x => decide (x = v)) := by
    have := length_joinRows onCols A B
    rw [sum_map_eq_toFinset_sum] at this
    exact this
  rw [h1]
  refine Finset.sum_subset ?_ ?_
  · rw [List.toFinset_append]
    exact Finset.subset_union_left
  · intro v _ hv
    have : (tuplesOf onCols A).countP (fun x => decide (x = v)) = 0 := by
      rw [List.countP_eq_zero]
      intro x hx
      simp only [decide_eq_true_eq]
      intro hxv
      exact hv (List.mem_toFinset.mpr (hxv ▸ hx))
    rw [this, Nat.zero_mul]

/-! ## Claim C1: null rejection -/

theorem optMapList_some_forall {f : α → Option β} {ls : List α} {t : List β}
    (h : optMapList f ls = some t) : ∀ l ∈ ls, ∃ v, f l = some v := by
  induction ls generalizing t with
  | nil => intro l hl; cases hl
  | cons a ls ih =>
    intro l hl
    unfold optMapList at h
    cases hf : f a with
    | none => rw [hf] at h; cases h
    | some b =>
      rw [hf] at h
      cases hrest : optMapList f ls with
      | none => rw [hrest] at h; cases h
      | some bs =>
        rw [hrest] at h
        rcases List.mem_cons.mp hl with heq | hmem
        · exact ⟨b, heq ▸ hf⟩
        · exact ih hrest l hmem

theorem colIdx_some_label {l : String} {cols : List Col} {i : Nat}
    (h : colIdx l cols = some i) : ∃ c ∈ cols, c.label = l := by
  induction cols generalizing i with
  | nil => cases h
  | cons c cs ih =>
    unfold colIdx at h
    by_cases hc : c.label = l
    · exact ⟨c, List.mem_cons_self c cs, hc⟩
    · rw [if_neg hc] at h
      cases hrec : colIdx l cs with
      | none => rw [hrec] at h; cases h
      | some j =>
        obtain ⟨c', hc', hl'⟩ := ih hrec
        exact ⟨c', List.mem_cons_of_mem c hc', hl'⟩

theorem cell_some_exists_col {cols : List Col} {r : Row} {l : String} {v : Value}
    (h : cell cols r l = some v) : ∃ c ∈ cols, c.label = l := by
  unfold cell at h
  cases hidx : colIdx l cols with
  | none => rw [hidx] at h; cases h
  | some i => exact colIdx_some_label hidx

theorem mem_sortedPairsOf {onCols : List String} {cols : List Col} {rows : List Row}
    {p : List Value × Row} (h : p ∈ sortedPairsOf onCols cols rows) :
    p.2 ∈ rows ∧ onTuple onCols cols p.2 = some p.1 := by
  unfold sortedPairsOf at h
  obtain ⟨r, hr, heq⟩ := List.mem_filterMap.mp ((mem_insSort _ _ _).mp h)
  cases ht : onTuple onCols cols r with
  | none => rw [ht] at heq; cases heq
  | some t =>
    rw [ht] at heq
    cases heq
    exact ⟨hr, ht⟩

theorem mem_joinRows {onCols : List String} {A B : Table} {r : Row}
    (h : r ∈ joinRows onCols A B) :
    ∃ ta ra rb, onTuple onCols A.cols ra = some ta ∧ onTuple onCols B.cols rb = some ta ∧
      ra ∈ A.rows ∧ rb ∈ B.rows ∧ r = outRow A B (joinOutCols onCols A B) ra rb := by
  unfold joinRows at h
  obtain ⟨p, hp, hr2⟩ := List.mem_flatMap.mp h
  obtain ⟨q, hq, hre⟩ := List.mem_map.mp hr2
  obtain ⟨hqb, hqd⟩ := List.mem_filter.mp hq
  have hq1 : q.1 = p.1 := of_decide_eq_true hqd
  obtain ⟨hpa, hpt⟩ := mem_sortedPairsOf hp
  obtain ⟨hqa, hqt⟩ := mem_sortedPairsOf hqb
  exact ⟨p.1, p.2, q.2, hpt, hq1 ▸ hqt, hpa, hqa, hre.symm⟩

theorem mem_zip_outRow {onCols : List String} {A B : Table} {ra rb : Row}
    {p : Col × Option Value}
    (h : p ∈ ((joinOutCols onCols A B).map
        (fun oc => (⟨oc.label, oc.typ⟩ : Col))).zip (outRow A B (joinOutCols onCols A B) ra rb)) :
    ∃ oc ∈ joinOutCols onCols A B,
      p = ((⟨oc.label, oc.typ⟩ : Col), outCell A B ra rb oc) := by
  unfold outRow at h
  rw [List.zip_map'] at h
  obtain ⟨oc, hoc, heq⟩ := List.mem_map.mp h
  exact ⟨oc, hoc, heq.symm⟩

theorem joinOutCols_label_nodup (onCols : List String) (A B : Table)
    (hnd : ((joinPair onCols A B).cols.map Col.label).Nodup) :
    ((joinOutCols onCols A B).map OutCol.label).Nodup := by
  have h2 : (joinPair onCols A B).cols.map Col.label =
      (joinOutCols onCols A B).map OutCol.label := by
    show ((joinOutCols onCols A B).map fun oc => (⟨oc.label, oc.typ⟩ : Col)).map
      Col.label = _
    rw [List.map_map]
    rfl
  rwa [h2] at hnd

theorem mem_outColsA (onCols : List String) (A B : Table) {c : Col} (hc : c ∈ A.cols) :
    (⟨renameLabel onCols (sharedCols A B) .a c.label, c.typ, .a, c.label⟩ : OutCol) ∈
      joinOutCols onCols A B := by
  unfold joinOutCols
  rw [mem_insSort]
  exact List.mem_append_left _ (List.mem_map.mpr ⟨c, hc, rfl⟩)

theorem mem_outColsB (onCols : List String) (A B : Table) {c : Col} (hc : c ∈ B.cols)
    (hno : c.label ∉ onCols) :
    (⟨renameLabel onCols (sharedCols A B) .b c.label, c.typ, .b, c.label⟩ : OutCol) ∈
      joinOutCols onCols A B := by
  unfold joinOutCols
  rw [mem_insSort]
  refine List.mem_append_right _ (List.mem_map.mpr ⟨c, ?_, rfl⟩)
  exact List.mem_filter.mpr ⟨hc, by simpa using hno⟩

/-- C1: for every pair of input streams and every `on` list, no row of an
emitted output table (with well-formed, duplicate-free output labels) has a
null value in any column labelled by an `on` column: rows whose `on`-tuple
has a null are rejected and never contribute. -/
theorem join_null_rejection (onCols : List String) (sA sB : List Table) (T : Table)
    (hT : T ∈ joinStreams onCols sA sB)
    (hnd : (T.cols.map Col.label).Nodup) :
    ∀ r ∈ T.rows, ∀ p ∈ T.cols.zip r, p.1.label ∈ onCols → p.2 ≠ none := by
  obtain ⟨hT2, -⟩ := List.mem_filter.mp hT
  obtain ⟨A, -, hT3⟩ := List.mem_flatMap.mp hT2
  obtain ⟨B, -, hTeq⟩ := List.mem_map.mp hT3
  subst hTeq
  intro r hr p hp hlab
  obtain ⟨ta, ra, rb, hta, htb, hraA, hrbB, hre⟩ := mem_joinRows hr
  subst hre
  obtain ⟨oc, hoc, hpe⟩ := mem_zip_outRow hp
  subst hpe
  simp only at hlab
  obtain ⟨w, hw⟩ := optMapList_some_forall hta oc.label hlab
  obtain ⟨cA, hcA, hcAl⟩ := cell_some_exists_col hw
  have hocA := mem_outColsA onCols A B hcA
  have hrn : renameLabel onCols (sharedCols A B) .a cA.label = cA.label := by
    unfold renameLabel
    rw [if_pos (hcAl ▸ hlab)]
  rw [hrn] at hocA
  have hinj := List.inj_on_of_nodup_map (joinOutCols_label_nodup onCols A B hnd)
  have hoceq : oc = ⟨cA.label, cA.typ, .a, cA.label⟩ :=
    hinj hoc hocA hcAl.symm
  show outCell A B ra rb oc ≠ none
  rw [hoceq]
  have hce : outCell A B ra rb ⟨cA.label, cA.typ, .a, cA.label⟩ =
      cell A.cols ra cA.label := rfl
  rw [hce, hcAl, hw]
  exact Option.some_ne_none w

/-- Witness for C1, at the simple-inner scenario: the first output row's
`_time` cell is non-null. -/
theorem join_null_rejection_witness :
    (joinPair ["_time"] simpleA simpleB ∈ joinStreams ["_time"] [simpleA] [simpleB] ∧
     ((joinPair ["_time"] simpleA simpleB).cols.map Col.label).Nodup ∧
     [vt 1, vf 10, vf 100] ∈ (joinPair ["_time"] simpleA simpleB).rows ∧
     ((⟨"_time", .time⟩ : Col), vt 1) ∈
       (joinPair ["_time"] simpleA simpleB).cols.zip [vt 1, vf 10, vf 100] ∧
     "_time" ∈ ["_time"]) ∧
    vt 1 ≠ none := by
  refine ⟨⟨by decide, by decide, by decide, by decide, by decide⟩, ?_⟩
  exact join_null_rejection ["_time"] [simpleA] [simpleB]
    (joinPair ["_time"] simpleA simpleB) (by decide) (by decide)
    [vt 1, vf 10, vf 100] (by decide) (⟨"_time", .time⟩, vt 1) (by decide) (by decide)

/-! ## Claim C7: key constancy of output tables -/

theorem optMapList_congr {f g : α → Option β} {ls : List α} {t : List β}
    (hf : optMapList f ls = some t) (hg : optMapList g ls = some t) :
    ∀ l ∈ ls, f l = g l := by
  induction ls generalizing t with
  | nil => intro l hl; cases hl
  | cons a ls ih =>
    intro l hl
    unfold optMapList at hf hg
    cases hfa : f a with
    | none => rw [hfa] at hf; cases hf
    | some b =>
      rw [hfa] at hf
      cases hfr : optMapList f ls with
      | none => rw [hfr] at hf; cases hf
      | some bs =>
        rw [hfr] at hf
        cases hga : g a with
        | none => rw [hga] at hg; cases hg
        | some b' =>
          rw [hga] at hg
          cases hgr : optMapList g ls with
          | none => rw [hgr] at hg; cases hg
          | some bs' =>
            rw [hgr] at hg
            have hf2 : some (b :: bs) = some t := hf
            have hg2 : some (b' :: bs') = some t := hg
            injection hf2 with hf3
            injection hg2 with hg3
            rw [← hf3] at hg3
            injection hg3 with hb hbs
            rcases List.mem_cons.mp hl with heq | hmem
            · subst heq
              rw [hfa, hga, hb]
            · refine ih hfr ?_ l hmem
              rw [hgr, hbs]

theorem onCol_exists {onCols : List String} {cols : List Col} {r : Row}
    {ta : List Value} {l : String} (hta : onTuple onCols cols r = some ta)
    (hl : l ∈ onCols) : ∃ c ∈ cols, c.label = l := by
  obtain ⟨w, hw⟩ := optMapList_some_forall hta l hl
  exact cell_some_exists_col hw

theorem ogkValue_eq {gk : List (String × Option Value)} {lab : String}
    {v : Option Value} (hex : ∃ e ∈ gk, e.1 = lab)
    (huniq : ∀ e ∈ gk, e.1 = lab → e.2 = v) : ogkValue gk lab = v := by
  unfold ogkValue
  cases hf : gk.find? (fun q => decide (q.1 = lab)) with
  | none =>
    exfalso
    obtain ⟨e, he, hel⟩ := hex
    have := List.find?_eq_none.mp hf e he
    simp [hel] at this
  | some q =>
    have hq0 := @List.find?_some _ _ _ _ hf
    have hq1 : decide (q.1 = lab) = true := hq0
    exact huniq q (List.mem_of_find?_eq_some hf) (of_decide_eq_true hq1)

/-- C7: if both inputs satisfy key constancy and their group-key labels name
existing columns, then (given duplicate-free output labels) every row of the
output bucket agrees with the output group key on every OGK column. -/
theorem join_key_constancy (onCols : List String) (A B : Table)
    (hA : keyConstant A) (hB : keyConstant B)
    (hAe : keyColsExist A) (hBe : keyColsExist B)
    (hnd : ((joinPair onCols A B).cols.map Col.label).Nodup) :
    ∀ r ∈ (joinPair onCols A B).rows, ∀ p ∈ (joinPair onCols A B).cols.zip r,
      p.1.label ∈ (joinPair onCols A B).keyCols →
      p.2 = ogkValue (joinOGK onCols A B) p.1.label := by
  intro r hr p hp hkey
  obtain ⟨ta, ra, rb, hta, htb, hraA, hrbB, hre⟩ := mem_joinRows hr
  subst hre
  obtain ⟨oc, hoc, hpe⟩ := mem_zip_outRow hp
  subst hpe
  have hinj := List.inj_on_of_nodup_map (joinOutCols_label_nodup onCols A B hnd)
  have hkey' : oc.label ∈ joinKeyCols onCols A B := hkey
  unfold joinKeyCols at hkey'
  rw [mem_insSort] at hkey'
  obtain ⟨e, he, hel⟩ := List.mem_map.mp hkey'
  show outCell A B ra rb oc = ogkValue (joinOGK onCols A B) oc.label
  rcases List.mem_append.mp he with heA | heB
  · -- the key label comes from the A side of the OGK
    obtain ⟨l₁, hl₁, hee⟩ := List.mem_map.mp heA
    subst hee
    have hrl : renameLabel onCols (sharedCols A B) .a l₁ = oc.label := hel
    obtain ⟨c₁, hc₁, hc₁l⟩ := hAe l₁ hl₁
    have hocA := mem_outColsA onCols A B hc₁
    rw [hc₁l, hrl] at hocA
    have hoceq : oc = ⟨oc.label, c₁.typ, .a, l₁⟩ := hinj hoc hocA rfl
    have hlhs : outCell A B ra rb oc = keyValue A l₁ := by
      rw [hoceq]
      show cell A.cols ra l₁ = keyValue A l₁
      exact hA ra hraA l₁ hl₁
    rw [hlhs]
    refine (ogkValue_eq ⟨_, he, hel⟩ ?_).symm
    intro e' he' hel'
    rcases List.mem_append.mp he' with he'A | he'B
    · obtain ⟨l₂, hl₂, hee'⟩ := List.mem_map.mp he'A
      subst hee'
      have hrl₂ : renameLabel onCols (sharedCols A B) .a l₂ = oc.label := hel'
      obtain ⟨c₂, hc₂, hc₂l⟩ := hAe l₂ hl₂
      have hocA₂ := mem_outColsA onCols A B hc₂
      rw [hc₂l, hrl₂] at hocA₂
      have heq2 : (⟨oc.label, c₂.typ, .a, l₂⟩ : OutCol) = ⟨oc.label, c₁.typ, .a, l₁⟩ :=
        hinj hocA₂ hocA rfl
      injection heq2 with h1 h2 h3 h4
      show keyValue A l₂ = keyValue A l₁
      rw [h4]
    · obtain ⟨hbm', hbf'⟩ := List.mem_filter.mp he'B
      exfalso
      have hnot := of_decide_eq_true hbf'
      apply hnot
      rw [hel']
      exact List.mem_map.mpr ⟨_, heA, hel⟩
  · -- the key label comes from the B side of the OGK
    obtain ⟨hbm, hbf⟩ := List.mem_filter.mp heB
    obtain ⟨l₁, hl₁, hee⟩ := List.mem_map.mp hbm
    subst hee
    have hrl : renameLabel onCols (sharedCols A B) .b l₁ = oc.label := hel
    have hnotA : oc.label ∉ (joinOGKA onCols A B).map Prod.fst := by
      have h := of_decide_eq_true hbf
      have h2 : renameLabel onCols (sharedCols A B) .b l₁ ∉
          (joinOGKA onCols A B).map Prod.fst := h
      rwa [hrl] at h2
    by_cases honl : l₁ ∈ onCols
    · -- the key label is an `on` column, emitted from the A side
      have hrleq : l₁ = oc.label := by
        rw [← hrl]
        unfold renameLabel
        rw [if_pos honl]
      obtain ⟨cA, hcA, hcAl⟩ := onCol_exists hta honl
      have hocA := mem_outColsA onCols A B hcA
      have hrnA : renameLabel onCols (sharedCols A B) .a cA.label = cA.label := by
        unfold renameLabel
        rw [if_pos (hcAl ▸ honl)]
      rw [hrnA, hcAl] at hocA
      have hoceq : oc = ⟨l₁, cA.typ, .a, l₁⟩ := hinj hoc hocA hrleq.symm
      have hlhs : outCell A B ra rb oc = keyValue B l₁ := by
        rw [hoceq]
        show cell A.cols ra l₁ = keyValue B l₁
        rw [optMapList_congr hta htb l₁ honl]
        exact hB rb hrbB l₁ hl₁
      rw [hlhs]
      refine (ogkValue_eq ⟨_, he, hel⟩ ?_).symm
      intro e' he' hel'
      rcases List.mem_append.mp he' with he'A | he'B
      · exact absurd (hel' ▸ List.mem_map.mpr ⟨_, he'A, rfl⟩) hnotA
      · obtain ⟨hbm', hbf'⟩ := List.mem_filter.mp he'B
        obtain ⟨l₂, hl₂, hee'⟩ := List.mem_map.mp hbm'
        subst hee'
        have hrl₂ : renameLabel onCols (sharedCols A B) .b l₂ = oc.label := hel'
        show keyValue B l₂ = keyValue B l₁
        by_cases honl₂ : l₂ ∈ onCols
        · have : l₂ = oc.label := by
            rw [← hrl₂]
            unfold renameLabel
            rw [if_pos honl₂]
          rw [this, ← hrleq]
        · obtain ⟨c₂, hc₂, hc₂l⟩ := hBe l₂ hl₂
          have hocB₂ := mem_outColsB onCols A B hc₂ (by rwa [hc₂l])
          rw [hc₂l, hrl₂] at hocB₂
          have heq2 : (⟨oc.label, c₂.typ, .b, l₂⟩ : OutCol) = ⟨l₁, cA.typ, .a, l₁⟩ :=
            hinj hocB₂ hocA hrleq.symm
          injection heq2 with h1 h2 h3 h4
          exact Side.noConfusion h3
    · -- the key label is a renamed (or B-only) B column
      obtain ⟨c₁, hc₁, hc₁l⟩ := hBe l₁ hl₁
      have hocB := mem_outColsB onCols A B hc₁ (by rwa [hc₁l])
      rw [hc₁l, hrl] at hocB
      have hoceq : oc = ⟨oc.label, c₁.typ, .b, l₁⟩ := hinj hoc hocB rfl
      have hlhs : outCell A B ra rb oc = keyValue B l₁ := by
        rw [hoceq]
        show cell B.cols rb l₁ = keyValue B l₁
        exact hB rb hrbB l₁ hl₁
      rw [hlhs]
      refine (ogkValue_eq ⟨_, he, hel⟩ ?_).symm
      intro e' he' hel'
      rcases List.mem_append.mp he' with he'A | he'B
      · exact absurd (hel' ▸ List.mem_map.mpr ⟨_, he'A, rfl⟩) hnotA
      · obtain ⟨hbm', hbf'⟩ := List.mem_filter.mp he'B
        obtain ⟨l₂, hl₂, hee'⟩ := List.mem_map.mp hbm'
        subst hee'
        have hrl₂ : renameLabel onCols (sharedCols A B) .b l₂ = oc.label := hel'
        show keyValue B l₂ = keyValue B l₁
        by_cases honl₂ : l₂ ∈ onCols
        · exfalso
          have hl₂eq : l₂ = oc.label := by
            rw [← hrl₂]
            unfold renameLabel
            rw [if_pos honl₂]
          obtain ⟨cA₂, hcA₂, hcA₂l⟩ := onCol_exists hta honl₂
          have hocA₂ := mem_outColsA onCols A B hcA₂
          have hrnA₂ : renameLabel onCols (sharedCols A B) .a cA₂.label = cA₂.label := by
            unfold renameLabel
            rw [if_pos (hcA₂l ▸ honl₂)]
          rw [hrnA₂, hcA₂l] at hocA₂
          have heq2 : (⟨l₂, cA₂.typ, .a, l₂⟩ : OutCol) = ⟨oc.label, c₁.typ, .b, l₁⟩ :=
            hinj hocA₂ hocB hl₂eq
          injection heq2 with h1 h2 h3 h4
          exact Side.noConfusion h3
        · obtain ⟨c₂, hc₂, hc₂l⟩ := hBe l₂ hl₂
          have hocB₂ := mem_outColsB onCols A B hc₂ (by rwa [hc₂l])
          rw [hc₂l, hrl₂] at hocB₂
          have heq2 : (⟨oc.label, c₂.typ, .b, l₂⟩ : OutCol) = ⟨oc.label, c₁.typ, .b, l₁⟩ :=
            hinj hocB₂ hocB rfl
          injection heq2 with h1 h2 h3 h4
          rw [h4]

/-- Witness for C7, at the mismatched-schemas-with-null scenario: the first
output row's key_a cell equals the OGK value "foo". -/
theorem join_key_constancy_witness :
    (keyConstant mismatchA ∧ keyConstant mismatchB ∧
     keyColsExist mismatchA ∧ keyColsExist mismatchB ∧
     ((joinPair ["_time"] mismatchA mismatchB).cols.map Col.label).Nodup ∧
     [vt 1, vf 10, vf 100, vs "foo", none] ∈
       (joinPair ["_time"] mismatchA mismatchB).rows ∧
     ((⟨"key_a", .tstr⟩ : Col), vs "foo") ∈
       (joinPair ["_time"] mismatchA mismatchB).cols.zip
         [vt 1, vf 10, vf 100, vs "foo", none] ∧
     "key_a" ∈ (joinPair ["_time"] mismatchA mismatchB).keyCols) ∧
    vs "foo" = ogkValue (joinOGK ["_time"] mismatchA mismatchB) "key_a" := by
  refine ⟨⟨?_, ?_, ?_, ?_, ?_, ?_, ?_, ?_⟩, ?_⟩
  · decide
  · decide
  · decide
  · decide
  · decide
  · decide
  · decide
  · decide
  · exact join_key_constancy ["_time"] mismatchA mismatchB (by decide) (by decide)
      (by decide) (by decide) (by decide)
      [vt 1, vf 10, vf 100, vs "foo", none] (by decide)
      (⟨"key_a", .tstr⟩, vs "foo") (by decide) (by decide)

/-! ## Claim C10: the private-IP validator -/

theorem bool_eq_of_iff {a b : Bool} (h : a = true ↔ b = true) : a = b := by
  cases a <;> cases b <;> simp_all

set_option maxRecDepth 4096 in
theorem byteAnd255 : ∀ p : Fin 256, p.val &&& 255 = p.val := by decide

set_option maxRecDepth 4096 in
theorem byteAnd240 : ∀ p : Fin 256, (p.val &&& 240 = 16) ↔ (16 ≤ p.val ∧ p.val < 32) := by
  decide

set_option maxRecDepth 4096 in
theorem byteAnd192 : ∀ p : Fin 256, (p.val &&& 192 = 128) ↔ (128 ≤ p.val ∧ p.val < 192) := by
  decide

set_option maxRecDepth 4096 in
theorem byteAnd254 : ∀ p : Fin 256, (p.val &&& 254 = 252) ↔ (252 ≤ p.val ∧ p.val < 254) := by
  decide

theorem nat_and_255 (b : Nat) (h : b < 256) : b &&& 255 = b := byteAnd255 ⟨b, h⟩

theorem nat_and_240 (b : Nat) (h : b < 256) : (b &&& 240 = 16) ↔ (16 ≤ b ∧ b < 32) :=
  byteAnd240 ⟨b, h⟩

theorem nat_and_192 (b : Nat) (h : b < 256) : (b &&& 192 = 128) ↔ (128 ≤ b ∧ b < 192) :=
  byteAnd192 ⟨b, h⟩

theorem nat_and_254 (b : Nat) (h : b < 256) : (b &&& 254 = 252) ↔ (252 ≤ b ∧ b < 254) :=
  byteAnd254 ⟨b, h⟩

theorem nat_and_zero (b : Nat) : b &&& 0 = 0 := by simp

theorem zip_all_zero (l : List Nat) : ∀ (m : List Nat), l.length = m.length →
    (∀ y ∈ m, y = 0) → List.zipWith (fun x y => x &&& y) l m = m := by
  induction l with
  | nil =>
    intro m hlen _
    cases m with
    | nil => rfl
    | cons b mt => simp at hlen
  | cons a t ih =>
    intro m hlen hm
    cases m with
    | nil => simp at hlen
    | cons b mt =>
      simp only [List.zipWith_cons_cons]
      rw [hm b (List.mem_cons_self b mt), nat_and_zero,
        ih mt (by simpa using hlen) (fun y hy => hm y (List.mem_cons_of_mem b hy))]

theorem zip_all_ones (l : List Nat) : ∀ (m : List Nat), l.length = m.length →
    (∀ y ∈ m, y = 255) → (∀ x ∈ l, x < 256) →
    List.zipWith (fun x y => x &&& y) l m = l := by
  induction l with
  | nil =>
    intro m hlen _ _
    cases m with
    | nil => rfl
    | cons b mt => simp at hlen
  | cons a t ih =>
    intro m hlen hm hb
    cases m with
    | nil => simp at hlen
    | cons b mt =>
      simp only [List.zipWith_cons_cons]
      have ha : a &&& 255 = a := nat_and_255 a (hb a (List.mem_cons_self a t))
      rw [hm b (List.mem_cons_self b mt), ha,
        ih mt (by simpa using hlen) (fun y hy => hm y (List.mem_cons_of_mem b hy))
          (fun x hx => hb x (List.mem_cons_of_mem a hx))]

theorem ipTo4_some_cases {ip v : List Nat} (h : ipTo4 ip = some v) :
    (ip.length = 4 ∧ v = ip) ∨ (ip.length = 16 ∧ v = ip.drop 12) := by
  unfold ipTo4 at h
  split_ifs at h with h1 h2
  · injection h with h'
    exact Or.inl ⟨h1, h'.symm⟩
  · injection h with h'
    exact Or.inr ⟨h2.1, h'.symm⟩

theorem ipTo4_some_length {ip v : List Nat} (h : ipTo4 ip = some v) : v.length = 4 := by
  rcases ipTo4_some_cases h with ⟨h4, rfl⟩ | ⟨h16, rfl⟩
  · exact h4
  · rw [List.length_drop, h16]

theorem ipTo4_some_subset {ip v : List Nat} (h : ipTo4 ip = some v) :
    ∀ b ∈ v, b ∈ ip := by
  rcases ipTo4_some_cases h with ⟨-, rfl⟩ | ⟨-, rfl⟩
  · exact fun b hb => hb
  · exact fun b hb => List.drop_subset 12 ip hb

theorem ipTo4_none_16 {ip : List Nat} (h : ipTo4 ip = none)
    (hl : ip.length = 4 ∨ ip.length = 16) : ip.length = 16 := by
  rcases hl with h4 | h16
  · exfalso
    unfold ipTo4 at h
    rw [if_pos h4] at h
    cases h
  · exact h16

theorem contains4_iff (a0 a1 a2 a3 m0 m1 m2 m3 b0 b1 b2 b3 : Nat) :
    ipnetContains.ipnetContainsAux ⟨[a0, a1, a2, a3], [m0, m1, m2, m3]⟩
      [b0, b1, b2, b3] = true ↔
    (a0 &&& m0 = b0 &&& m0 ∧ a1 &&& m1 = b1 &&& m1 ∧
     a2 &&& m2 = b2 &&& m2 ∧ a3 &&& m3 = b3 &&& m3) := by
  simp [ipnetContains.ipnetContainsAux]

theorem blockV6false (addr mask : List Nat) (haddr : addr.length = 16)
    (b0 b1 b2 b3 : Nat) :
    ipnetContains.ipnetContainsAux ⟨addr, mask⟩ [b0, b1, b2, b3] = false := by
  unfold ipnetContains.ipnetContainsAux
  simp [haddr]

theorem blockV4false (addr mask : List Nat) (haddr : addr.length = 4)
    (l : List Nat) (hlen : l.length = 16) :
    ipnetContains.ipnetContainsAux ⟨addr, mask⟩ l = false := by
  unfold ipnetContains.ipnetContainsAux
  simp [haddr, hlen]

theorem blockZero_iff (b0 b1 b2 b3 : Nat) (h0 : b0 < 256) (h1 : b1 < 256)
    (h2 : b2 < 256) (h3 : b3 < 256) :
    (ipnetContains.ipnetContainsAux ⟨[0, 0, 0, 0], [255, 255, 255, 255]⟩
      [b0, b1, b2, b3] = true) ↔ (b0 = 0 ∧ b1 = 0 ∧ b2 = 0 ∧ b3 = 0) := by
  rw [contains4_iff]
  simp only [nat_and_255 b0 h0, nat_and_255 b1 h1, nat_and_255 b2 h2, nat_and_255 b3 h3,
    show (0 : Nat) &&& 255 = 0 from by decide]
  omega

theorem blockLoopback_iff (b0 b1 b2 b3 : Nat) (h0 : b0 < 256) :
    (ipnetContains.ipnetContainsAux ⟨[127, 0, 0, 0], [255, 0, 0, 0]⟩
      [b0, b1, b2, b3] = true) ↔ b0 = 127 := by
  rw [contains4_iff]
  simp only [nat_and_255 b0 h0, nat_and_zero,
    show (127 : Nat) &&& 255 = 127 from by decide,
    show (0 : Nat) &&& 0 = 0 from by decide, and_true, true_and]
  omega

theorem blockTen_iff (b0 b1 b2 b3 : Nat) (h0 : b0 < 256) :
    (ipnetContains.ipnetContainsAux ⟨[10, 0, 0, 0], [255, 0, 0, 0]⟩
      [b0, b1, b2, b3] = true) ↔ b0 = 10 := by
  rw [contains4_iff]
  simp only [nat_and_255 b0 h0, nat_and_zero,
    show (10 : Nat) &&& 255 = 10 from by decide,
    show (0 : Nat) &&& 0 = 0 from by decide, and_true, true_and]
  omega

theorem block172_iff (b0 b1 b2 b3 : Nat) (h0 : b0 < 256) (h1 : b1 < 256) :
    (ipnetContains.ipnetContainsAux ⟨[172, 16, 0, 0], [255, 240, 0, 0]⟩
      [b0, b1, b2, b3] = true) ↔ (b0 = 172 ∧ 16 ≤ b1 ∧ b1 < 32) := by
  rw [contains4_iff]
  have h240 : (16 = b1 &&& 240) ↔ (16 ≤ b1 ∧ b1 < 32) := by
    rw [eq_comm]
    exact nat_and_240 b1 h1
  simp only [nat_and_255 b0 h0, nat_and_zero,
    show (172 : Nat) &&& 255 = 172 from by decide,
    show (16 : Nat) &&& 240 = 16 from by decide,
    show (0 : Nat) &&& 0 = 0 from by decide, h240, and_true, true_and]
  omega

theorem block192_iff (b0 b1 b2 b3 : Nat) (h0 : b0 < 256) (h1 : b1 < 256) :
    (ipnetContains.ipnetContainsAux ⟨[192, 168, 0, 0], [255, 255, 0, 0]⟩
      [b0, b1, b2, b3] = true) ↔ (b0 = 192 ∧ b1 = 168) := by
  rw [contains4_iff]
  simp only [nat_and_255 b0 h0, nat_and_255 b1 h1, nat_and_zero,
    show (192 : Nat) &&& 255 = 192 from by decide,
    show (168 : Nat) &&& 255 = 168 from by decide,
    show (0 : Nat) &&& 0 = 0 from by decide, and_true, true_and]
  omega

theorem block169_iff (b0 b1 b2 b3 : Nat) (h0 : b0 < 256) (h1 : b1 < 256) :
    (ipnetContains.ipnetContainsAux ⟨[169, 254, 0, 0], [255, 255, 0, 0]⟩
      [b0, b1, b2, b3] = true) ↔ (b0 = 169 ∧ b1 = 254) := by
  rw [contains4_iff]
  simp only [nat_and_255 b0 h0, nat_and_255 b1 h1, nat_and_zero,
    show (169 : Nat) &&& 255 = 169 from by decide,
    show (254 : Nat) &&& 255 = 254 from by decide,
    show (0 : Nat) &&& 0 = 0 from by decide, and_true, true_and]
  omega

theorem blockLoopback6_iff (l : List Nat) (h16 : l.length = 16)
    (hb : ∀ b ∈ l, b < 256) :
    (ipnetContains.ipnetContainsAux
      ⟨[0, 0, 0, 0, 0, 0, 0, 0, 0, 0, 0, 0, 0, 0, 0, 1], [255, 255, 255, 255, 255, 255, 255, 255, 255, 255, 255, 255, 255, 255, 255, 255]⟩ l = true) ↔ l = [0, 0, 0, 0, 0, 0, 0, 0, 0, 0, 0, 0, 0, 0, 0, 1] := by
  unfold ipnetContains.ipnetContainsAux
  have e1 : List.zipWith (fun x y => x &&& y) ([0, 0, 0, 0, 0, 0, 0, 0, 0, 0, 0, 0, 0, 0, 0, 1] : List Nat) [255, 255, 255, 255, 255, 255, 255, 255, 255, 255, 255, 255, 255, 255, 255, 255] =
      [0, 0, 0, 0, 0, 0, 0, 0, 0, 0, 0, 0, 0, 0, 0, 1] := by decide
  have e2 : List.zipWith (fun x y => x &&& y) l [255, 255, 255, 255, 255, 255, 255, 255, 255, 255, 255, 255, 255, 255, 255, 255] = l :=
    zip_all_ones l [255, 255, 255, 255, 255, 255, 255, 255, 255, 255, 255, 255, 255, 255, 255, 255] (by rw [h16]; rfl) (by decide) hb
  rw [e1, e2]
  simp [h16, eq_comm]

set_option maxRecDepth 8192 in
theorem blockFe80_iff (i0 i1 : Nat) (rest : List Nat) (hr : rest.length = 14)
    (h0 : i0 < 256) (h1 : i1 < 256) :
    (ipnetContains.ipnetContainsAux
      ⟨[254, 128, 0, 0, 0, 0, 0, 0, 0, 0, 0, 0, 0, 0, 0, 0], [255, 192, 0, 0, 0, 0, 0, 0, 0, 0, 0, 0, 0, 0, 0, 0]⟩ (i0 :: i1 :: rest) = true) ↔
    (i0 = 254 ∧ 128 ≤ i1 ∧ i1 < 192) := by
  unfold ipnetContains.ipnetContainsAux
  have e1 : List.zipWith (fun x y => x &&& y) ([254, 128, 0, 0, 0, 0, 0, 0, 0, 0, 0, 0, 0, 0, 0, 0] : List Nat)
      [255, 192, 0, 0, 0, 0, 0, 0, 0, 0, 0, 0, 0, 0, 0, 0] = [254, 128, 0, 0, 0, 0, 0, 0, 0, 0, 0, 0, 0, 0, 0, 0] := by decide
  have e2 : List.zipWith (fun x y => x &&& y) (i0 :: i1 :: rest)
      [255, 192, 0, 0, 0, 0, 0, 0, 0, 0, 0, 0, 0, 0, 0, 0] = (i0 &&& 255) :: (i1 &&& 192) :: [0, 0, 0, 0, 0, 0, 0, 0, 0, 0, 0, 0, 0, 0] := by
    simp only [List.zipWith_cons_cons]
    rw [zip_all_zero rest [0, 0, 0, 0, 0, 0, 0, 0, 0, 0, 0, 0, 0, 0] (by rw [hr]; rfl) (by decide)]
  have h192 : (128 = i1 &&& 192) ↔ (128 ≤ i1 ∧ i1 < 192) := by
    rw [eq_comm]
    exact nat_and_192 i1 h1
  rw [e1, e2, nat_and_255 i0 h0]
  simp only [List.length_cons, List.length_nil, hr, Bool.and_eq_true, decide_eq_true_eq,
    List.cons.injEq, and_true, true_and, h192]
  omega

set_option maxRecDepth 8192 in
theorem blockFc00_iff (i0 : Nat) (tail : List Nat) (ht : tail.length = 15)
    (h0 : i0 < 256) :
    (ipnetContains.ipnetContainsAux
      ⟨[252, 0, 0, 0, 0, 0, 0, 0, 0, 0, 0, 0, 0, 0, 0, 0], [254, 0, 0, 0, 0, 0, 0, 0, 0, 0, 0, 0, 0, 0, 0, 0]⟩ (i0 :: tail) = true) ↔
    (252 ≤ i0 ∧ i0 < 254) := by
  unfold ipnetContains.ipnetContainsAux
  have e1 : List.zipWith (fun x y => x &&& y) ([252, 0, 0, 0, 0, 0, 0, 0, 0, 0, 0, 0, 0, 0, 0, 0] : List Nat)
      [254, 0, 0, 0, 0, 0, 0, 0, 0, 0, 0, 0, 0, 0, 0, 0] = [252, 0, 0, 0, 0, 0, 0, 0, 0, 0, 0, 0, 0, 0, 0, 0] := by decide
  have e2 : List.zipWith (fun x y => x &&& y) (i0 :: tail)
      [254, 0, 0, 0, 0, 0, 0, 0, 0, 0, 0, 0, 0, 0, 0, 0] = (i0 &&& 254) :: [0, 0, 0, 0, 0, 0, 0, 0, 0, 0, 0, 0, 0, 0, 0] := by
    simp only [List.zipWith_cons_cons]
    rw [zip_all_zero tail [0, 0, 0, 0, 0, 0, 0, 0, 0, 0, 0, 0, 0, 0, 0] (by rw [ht]; rfl) (by decide)]
  have h254 : (252 = i0 &&& 254) ↔ (252 ≤ i0 ∧ i0 < 254) := by
    rw [eq_comm]
    exact nat_and_254 i0 h0
  rw [e1, e2]
  simp only [List.length_cons, List.length_nil, ht, Bool.and_eq_true, decide_eq_true_eq,
    List.cons.injEq, and_true, true_and, h254]

theorem isPrivate_eq_spec (ip : List Nat) (hwf : wfIP ip) :
    isPrivateIP ip = privateIPSpec ip := by
  obtain ⟨hb, hlen⟩ := hwf
  apply bool_eq_of_iff
  cases hc4 : ipTo4 ip with
  | some v4 =>
    have hv4len := ipTo4_some_length hc4
    have hv4b : ∀ b ∈ v4, b < 256 := fun b hbv => hb b (ipTo4_some_subset hc4 b hbv)
    rcases v4 with _ | ⟨b0, _ | ⟨b1, _ | ⟨b2, _ | ⟨b3, _ | ⟨b4, rest⟩⟩⟩⟩⟩ <;>
      simp at hv4len
    have h0 : b0 < 256 := hv4b b0 (by simp)
    have h1 : b1 < 256 := hv4b b1 (by simp)
    have h2 : b2 < 256 := hv4b b2 (by simp)
    have h3 : b3 < 256 := hv4b b3 (by simp)
    have hcont : ∀ blk : IPNet,
        ipnetContains blk ip = ipnetContains.ipnetContainsAux blk [b0, b1, b2, b3] := by
      intro blk
      unfold ipnetContains
      rw [hc4]
    unfold isPrivateIP privateIPBlocks
    simp only [List.any_cons, List.any_nil, Bool.or_eq_true, Bool.false_eq_true, or_false]
    simp only [hcont]
    rw [blockZero_iff b0 b1 b2 b3 h0 h1 h2 h3, blockLoopback_iff b0 b1 b2 b3 h0,
      blockTen_iff b0 b1 b2 b3 h0, block172_iff b0 b1 b2 b3 h0 h1,
      block192_iff b0 b1 b2 b3 h0 h1, block169_iff b0 b1 b2 b3 h0 h1,
      blockV6false _ _ (by decide) b0 b1 b2 b3,
      blockV6false _ _ (by decide) b0 b1 b2 b3,
      blockV6false _ _ (by decide) b0 b1 b2 b3]
    unfold privateIPSpec
    rw [hc4]
    simp only [Bool.false_eq_true, or_false, decide_eq_true_eq]
  | none =>
    have h16 := ipTo4_none_16 hc4 hlen
    rcases ip with _ | ⟨i0, _ | ⟨i1, rest⟩⟩
    · simp at h16
    · simp at h16
    have hr : rest.length = 14 := by simpa using h16
    have h0 : i0 < 256 := hb i0 (by simp)
    have h1 : i1 < 256 := hb i1 (by simp)
    have hcont : ∀ blk : IPNet,
        ipnetContains blk (i0 :: i1 :: rest) =
          ipnetContains.ipnetContainsAux blk (i0 :: i1 :: rest) := by
      intro blk
      unfold ipnetContains
      rw [hc4]
    unfold isPrivateIP privateIPBlocks
    simp only [List.any_cons, List.any_nil, Bool.or_eq_true, Bool.false_eq_true, or_false]
    simp only [hcont]
    rw [blockV4false _ _ (by decide) _ h16, blockV4false _ _ (by decide) _ h16,
      blockV4false _ _ (by decide) _ h16, blockV4false _ _ (by decide) _ h16,
      blockV4false _ _ (by decide) _ h16, blockV4false _ _ (by decide) _ h16,
      blockLoopback6_iff (i0 :: i1 :: rest) h16 hb,
      blockFe80_iff i0 i1 rest hr h0 h1,
      blockFc00_iff i0 (i1 :: rest) (by simpa using h16) h0]
    unfold privateIPSpec
    rw [hc4]
    simp only [List.getD_cons_zero, List.getD_cons_succ, Bool.false_eq_true, false_or,
      Bool.or_eq_true, Bool.and_eq_true, decide_eq_true_eq, h16, eq_self_iff_true,
      true_and]

/-- C10: for a well-formed address, ValidateIP returns the Invalid error
"no such host" exactly when the address lies in one of the nine private
blocks (0.0.0.0/32, 127.0.0.0/8, 10.0.0.0/8, 172.16.0.0/12, 192.168.0.0/16,
169.254.0.0/16, ::1/128, fe80::/10, fc00::/7), and returns nil exactly
otherwise. -/
theorem validateIP_iff_isPrivate (ip : List Nat) (hwf : wfIP ip) :
    (validateIP ip = some ⟨.invalid, "no such host"⟩ ↔ privateIPSpec ip = true) ∧
    (validateIP ip = none ↔ privateIPSpec ip = false) := by
  have key := isPrivate_eq_spec ip hwf
  unfold validateIP
  simp only [key]
  cases hp : privateIPSpec ip <;> simp [hp]

/-- Witness for C10 at the private address 10.0.0.1 and the public address
8.8.8.8. -/
theorem validateIP_iff_witness :
    (wfIP [10, 0, 0, 1] ∧ wfIP [8, 8, 8, 8]) ∧
    validateIP [10, 0, 0, 1] = some ⟨.invalid, "no such host"⟩ ∧
    validateIP [8, 8, 8, 8] = none := by
  refine ⟨⟨by decide, by decide⟩, ?_, ?_⟩
  · exact (validateIP_iff_isPrivate [10, 0, 0, 1] (by decide)).1.mpr (by decide)
  · exact (validateIP_iff_isPrivate [8, 8, 8, 8] (by decide)).2.mpr (by decide)
